import Mathlib

/-!
Verification of the binary record parsers of the Windows recycle-bin analyzer
(`src/parsers.py`: `parse_info2_file` and `parse_metadata_file`).

Bytes are modelled as natural numbers (each `< 256` for meaningful inputs),
files as lists of bytes.  Python text is modelled as a list of Unicode code
points.  A sequential file handle with a possible underlying I/O fault is
modelled by `Src`: reading a range that crosses the fault offset raises,
which the parsers catch exactly as the Python `try`/`except` blocks do.
`datetime` arithmetic is modelled in integer microseconds since
1601-01-01T00:00:00; constructing an instant past `datetime.max`
(9999-12-31T23:59:59.999999) raises OverflowError, modelled by `Except.error`.
-/

set_option maxRecDepth 100000

namespace RecycleBin

/-- Little-endian value of a byte list, as `struct.unpack` of a `<Q` / `<I`
field reads it. -/
def leNat (bs : List Nat) : Nat :=
  bs.foldr (fun b acc => b + 256 * acc) 0

/-- Little-endian encoding of `n` into `w` bytes (used to build inputs). -/
def leBytes : Nat → Nat → List Nat
  | 0, _ => []
  | w + 1, n => n % 256 :: leBytes w (n / 256)

/-- UTF-16LE code units of a byte list.  A trailing lone byte is truncated
data, which the ignore-errors decoder drops. -/
def toUnits : List Nat → List Nat
  | b0 :: b1 :: rest => (b0 + 256 * b1) :: toUnits rest
  | _ => []

/-- Lossy decode of a UTF-16 code-unit list, as the Python bytes decode
with encoding utf-16le and errors set to ignore behaves on the unit stream:
a unit outside the surrogate range is a code point; a high surrogate
followed by a low surrogate combines into a supplementary code point;
a lone surrogate (and a truncated final pair) is silently dropped. -/
def decodeUnits : List Nat → List Nat
  | [] => []
  | [u] => if u < 0xD800 ∨ 0xDFFF < u then [u] else []
  | u :: v :: rest =>
    if u < 0xD800 ∨ 0xDFFF < u then u :: decodeUnits (v :: rest)
    else if 0xDC00 ≤ u then decodeUnits (v :: rest)
    else if 0xDC00 ≤ v ∧ v ≤ 0xDFFF then
      (0x10000 + (u - 0xD800) * 0x400 + (v - 0xDC00)) :: decodeUnits rest
    else decodeUnits (v :: rest)

/-- Lossy UTF-16LE decode of a byte list: the bytes decode with encoding
utf-16le and errors set to ignore. -/
def utf16leIgnore (bs : List Nat) : List Nat :=
  decodeUnits (toUnits bs)

/-- Windows path separators: backslash and slash. -/
def isSep (c : Nat) : Bool := c == 0x5C || c == 0x2F

/-- Model of `pathlib.Path(p).name` under Windows semantics (the tool runs
against `C:\$Recycle.Bin`): strip a drive prefix `X:`, drop trailing
separators, and keep the final component.  Exotic UNC/reserved forms are
outside the inputs exercised here. -/
def winName (p : List Nat) : List Nat :=
  let q := if p.get? 1 = some 0x3A then p.drop 2 else p
  (((q.reverse.dropWhile isSep).takeWhile (fun c => !isSep c)).reverse)

/-- Microseconds from 1601-01-01T00:00:00 to Python `datetime.max`
(9999-12-31T23:59:59.999999): 3067670 full days (ordinal 3652059 minus
ordinal 584389) plus 86399999999 microseconds into the final day. -/
def maxTimestampMicros : Nat := 265046774399999999

/-- The FILETIME conversion both parsers perform:
`datetime(1601,1,1) + timedelta(microseconds=t // 10)` when `t > 0`,
`None` when `t == 0`.  The result is microseconds since 1601-01-01, or
`Except.error` for the OverflowError raised when the instant exceeds
`datetime.max`. -/
def decodeTimestamp (t : Nat) : Except Unit (Option Nat) :=
  if 0 < t then
    if t / 10 ≤ maxTimestampMicros then .ok (some (t / 10)) else .error ()
  else .ok none

/-- A sequential byte source: file contents plus an optional fault offset.
A read whose requested range crosses the fault offset raises an I/O error
(device fault); otherwise the read returns the available bytes, short at
end of file, exactly like Python `f.read(n)`. -/
structure Src where
  data : List Nat
  fault : Option Nat
deriving DecidableEq

/-- Model of reading `n` bytes at absolute position `pos` on source `s`. -/
def readSrc (s : Src) (pos n : Nat) : Except Unit (List Nat) :=
  match s.fault with
  | some k => if k < pos + n then .error () else .ok ((s.data.drop pos).take n)
  | none => .ok ((s.data.drop pos).take n)

/-- The record dictionary built per INFO2 record. -/
structure Info2Record where
  original_name : List Nat
  file_size : Nat
  delete_time : Option Nat
  record_data : List Nat
deriving DecidableEq

/-- Name extraction of `parse_info2_file`: take the record bytes 16 to 280,
find the first zero byte (the bytes find of a single zero byte), and
lossily decode the bytes before it (the whole field when no zero byte
occurs). -/
def info2Name (recBytes : List Nat) : List Nat :=
  let nameBytes := (recBytes.drop 16).take 264
  match nameBytes.findIdx? (fun b => b == 0) with
  | some i => utf16leIgnore (nameBytes.take i)
  | none => utf16leIgnore nameBytes

/-- Field decode of one 280-byte INFO2 record: bytes [0:8) file size,
[8:16) delete-time ticks, [16:280) name field.  The timestamp conversion
can raise (OverflowError), which aborts the surrounding loop. -/
def parseInfo2Record (recBytes : List Nat) : Except Unit Info2Record :=
  match decodeTimestamp (leNat ((recBytes.drop 8).take 8)) with
  | .error e => .error e
  | .ok dt => .ok ⟨info2Name recBytes, leNat (recBytes.take 8), dt, recBytes⟩

/-- The `for _ in range(file_count)` loop of `parse_info2_file`.  The `Bool`
result records whether the `except` handler fired (the printed diagnostic);
records accumulated before an abort are kept, because `files_info` is
appended to inside the `try` block. -/
def info2Loop (s : Src) : Nat → Nat → List Info2Record × Bool
  | _, 0 => ([], false)
  | pos, c + 1 =>
    match readSrc s pos 280 with
    | .error _ => ([], true)
    | .ok recBytes =>
      if recBytes.length < 280 then ([], false)
      else
        match parseInfo2Record recBytes with
        | .error _ => ([], true)
        | .ok r =>
          let rest := info2Loop s (pos + 280) c
          (r :: rest.1, rest.2)

/-- `parse_info2_file`: read a 20-byte header (short header: empty result),
take the record count from header bytes [4:8), then run the record loop.
The second component is true exactly when the `except` handler printed a
diagnostic. -/
def parse_info2_file (s : Src) : List Info2Record × Bool :=
  match readSrc s 0 20 with
  | .error _ => ([], true)
  | .ok header =>
    if header.length < 20 then ([], false)
    else info2Loop s 20 (leNat ((header.drop 4).take 4))

/-- The `$I` header signature `02 00 00 00 00 00 00 00`. -/
def sigBytes : List Nat := [0x02, 0, 0, 0, 0, 0, 0, 0]

/-- Outcome of the signature scan loop of `parse_metadata_file`. -/
inductive ScanResult where
  | fault : ScanResult
  | noRecord : ScanResult
  | found : Nat → ScanResult
  | spin : ScanResult
deriving DecidableEq

/-- The `while True` signature scan of `parse_metadata_file`, with explicit
fuel (`spin` = fuel exhausted; the termination theorem shows enough fuel
makes `spin` unreachable).  Each iteration reads 8 bytes at `pos`:
short read returns no record; the signature ends the scan with the stream
positioned after it; a window starting `FF FE` skips all 8 bytes read
(`continue` after the full read); otherwise the stream is rewound to
`pos + 1`, and the source's limit check `f.tell() > pos + 100` compares the
new position against the same iteration's `pos`, kept here verbatim. -/
def scanSig (s : Src) : Nat → Nat → ScanResult
  | _, 0 => .spin
  | pos, f + 1 =>
    match readSrc s pos 8 with
    | .error _ => .fault
    | .ok header =>
      if header.length < 8 then .noRecord
      else if header = sigBytes then .found (pos + 8)
      else if header.take 2 = [0xFF, 0xFE] then scanSig s (pos + 8) f
      else if pos + 1 > pos + 100 then .noRecord
      else scanSig s (pos + 1) f

/-- The record dictionary built by `parse_metadata_file` (the fields decoded
from the bytes; the sibling `$R`-file fields depend only on the filesystem,
not on the parsed bytes, and are outside this byte-level model). -/
structure MetaRecord where
  original_name : List Nat
  original_path : List Nat
  file_size : Nat
  delete_time : Option Nat
deriving DecidableEq

/-- The literal fallback text "Unknown". -/
def unknownText : List Nat := [0x55, 0x6E, 0x6B, 0x6E, 0x6F, 0x77, 0x6E]

/-- Drop the final two bytes when both are zero, as the endswith check of
`parse_metadata_file` does before decoding the path. -/
def stripNullPair (bs : List Nat) : List Nat :=
  if bs.reverse.take 2 = [0, 0] then (bs.reverse.drop 2).reverse else bs

/-- `parse_metadata_file`: scan for the signature, then read file size (u64),
delete-time ticks (u64, converted immediately), path length `L` (u32), and,
when `L > 0`, `2*L` path bytes — a short path read degrades to the literal
"Unknown" rather than failing.  Any raised error (I/O fault, overflow)
is caught and yields `none`. -/
def parse_metadata_file (s : Src) : Option MetaRecord :=
  match scanSig s 0 (s.data.length + 1) with
  | .fault => none
  | .noRecord => none
  | .spin => none
  | .found p =>
    match readSrc s p 8 with
    | .error _ => none
    | .ok sizeData =>
      if sizeData.length < 8 then none
      else
        match readSrc s (p + 8) 8 with
        | .error _ => none
        | .ok timeData =>
          if timeData.length < 8 then none
          else
            match decodeTimestamp (leNat timeData) with
            | .error _ => none
            | .ok dt =>
              match readSrc s (p + 16) 4 with
              | .error _ => none
              | .ok lenData =>
                if lenData.length < 4 then none
                else
                  let pathLen := leNat lenData
                  if 0 < pathLen then
                    match readSrc s (p + 20) (pathLen * 2) with
                    | .error _ => none
                    | .ok pathData =>
                      if pathData.length ≥ pathLen * 2 then
                        let path := utf16leIgnore (stripNullPair pathData)
                        some ⟨winName path, path, leNat sizeData, dt⟩
                      else some ⟨unknownText, unknownText, leNat sizeData, dt⟩
                  else some ⟨unknownText, unknownText, leNat sizeData, dt⟩

/-! ### Concrete inputs used by the closed theorems -/

/-- Legacy name field of 264 bytes holding UTF-16LE abc, null-terminated:
its first null code unit starts at byte offset 6 (after the three units
0x61 0x62 0x63), but its first zero byte is at offset 1 (the high byte of
the letter a). -/
def asciiNameField : List Nat := [0x61, 0, 0x62, 0, 0x63, 0] ++ List.replicate 258 0

/-- Full 280-byte INFO2 record around `asciiNameField` (size 0, ticks 0). -/
def asciiInfo2Record : List Nat := List.replicate 16 0 ++ asciiNameField

/-- Body of a well-formed item record after the signature: u64 size 1024,
u64 ticks 0, u32 path length 4, then the path C:\a in UTF-16LE followed by
a null code-unit pair. -/
def itemBody : List Nat :=
  leBytes 8 1024 ++ leBytes 8 0 ++ leBytes 4 4 ++
    [0x43, 0, 0x3A, 0, 0x5C, 0, 0x61, 0, 0, 0]

/-- Well-formed item file: the signature then `itemBody`. -/
def goodItem : List Nat := sigBytes ++ itemBody

/-- Record that `goodItem` decodes to: name a, path C:\a, size 1024, no
timestamp. -/
def goodItemRecord : MetaRecord := ⟨[0x61], [0x43, 0x3A, 0x5C, 0x61], 1024, none⟩

/-- Junk prefix: 101 bytes 0x41, containing neither the signature nor a
window starting FF FE. -/
def junk101 : List Nat := List.replicate 101 0x41

/-- INFO2 header of 20 bytes declaring format version 5 and record count 2. -/
def hdrN2 : List Nat := leBytes 4 5 ++ leBytes 4 2 ++ List.replicate 12 0

/-- Complete 280-byte record whose tick field is 2 ^ 64 - 1, making the
FILETIME conversion overflow the maximal datetime. -/
def overflowRecord : List Nat :=
  leBytes 8 0 ++ leBytes 8 (2 ^ 64 - 1) ++ List.replicate 264 0

/-- All-zero 280-byte INFO2 record. -/
def zeroRecord : List Nat := List.replicate 280 0

/-- Pure form of the record a 280-byte block decodes to when its timestamp
conversion does not overflow: size from bytes 0 to 8, ticks from bytes
8 to 16 truncated to microseconds, name per `info2Name`. -/
def mkInfo2 (b : List Nat) : Info2Record :=
  ⟨info2Name b, leNat (b.take 8),
    if 0 < leNat ((b.drop 8).take 8) then some (leNat ((b.drop 8).take 8) / 10)
    else none, b⟩

/-! ### Helper lemmas -/

theorem leNat_nil : leNat [] = 0 := rfl

theorem leNat_cons (b : Nat) (l : List Nat) : leNat (b :: l) = b + 256 * leNat l := rfl

theorem length_leBytes (w n : Nat) : (leBytes w n).length = w := by
  induction w generalizing n with
  | zero => rfl
  | succ w ih => simp [leBytes, ih]

theorem leNat_leBytes (w n : Nat) (h : n < 256 ^ w) : leNat (leBytes w n) = n := by
  induction w generalizing n with
  | zero =>
    have : n = 0 := by simpa using Nat.lt_one_iff.mp (by simpa using h)
    simp [this, leBytes, leNat_nil]
  | succ w ih =>
    have hdiv : n / 256 < 256 ^ w := by
      rw [Nat.div_lt_iff_lt_mul (by norm_num : (0 : Nat) < 256)]
      calc n < 256 ^ (w + 1) := h
        _ = 256 ^ w * 256 := by ring
    rw [leBytes, leNat_cons, ih (n / 256) hdiv]
    omega

/-! ### Claim theorems -/

/-- C1 (failing input): in the 264-byte field holding UTF-16LE abc, the
first null code unit starts at byte offset 6 (the unit stream is 0x61 0x62
0x63 then 0), so the claim demands the three-character name abc; the code
stops at the first zero byte — offset 1, the high byte of the first letter
— and decodes the empty name instead. -/
theorem c1_name_stops_at_zero_byte :
    (toUnits asciiNameField).take 4 = [0x61, 0x62, 0x63, 0] ∧
      info2Name asciiInfo2Record = [] ∧ [0x61, 0x62, 0x63] ≠ ([] : List Nat) :=
  ⟨rfl, rfl, by decide⟩

/-- C2 (failing input): 101 junk bytes 0x41 precede the signature, so the
signature does not occur within 100 bytes of the scan start and the claim
demands a failed parse; the limit check compares the rewound position
against the position saved at the top of the same iteration and thus never
fires, so the scan walks byte by byte to offset 101, finds the signature,
and returns the fully decoded record. -/
theorem c2_scan_not_bounded :
    parse_metadata_file ⟨junk101 ++ goodItem, none⟩ = some goodItemRecord := by
  rfl

/-- C3 (failing input): two bytes FF FE before a valid record make the scan
skip all 8 bytes of the window it just read, overshooting the signature
that starts at offset 2; the remaining byte-by-byte scan never sees a
signature window, so the parse returns no record — although the identical
bytes without the leading FF FE decode fully. -/
theorem c3_bom_skip_overshoots :
    parse_metadata_file ⟨[0xFF, 0xFE] ++ goodItem, none⟩ = none ∧
      parse_metadata_file ⟨goodItem, none⟩ = some goodItemRecord :=
  ⟨rfl, rfl⟩

/-- C4 (counterexample): at tick value 1 the code produces the epoch plus
1 // 10 = 0 microseconds — the epoch itself — while the claim demands the
epoch plus exactly 100 nanoseconds, and 1 * 100 nanoseconds is not
0 * 1000 nanoseconds. -/
theorem c4_cex_tick_one :
    decodeTimestamp 1 = Except.ok (some 0) ∧ 1 * 100 ≠ 0 * 1000 :=
  ⟨rfl, by decide⟩

/-- C4 (amended): for every tick value whose truncated microsecond count is
representable (at most `maxTimestampMicros`, the distance to the maximal
datetime), the shared conversion of both parsers yields no timestamp for 0
and otherwise the epoch plus t * 100 nanoseconds truncated to whole
microseconds — t // 10 microseconds, exact only when t is a multiple of
ten. -/
theorem decodeTimestamp_truncates (t : Nat) (h : t / 10 ≤ maxTimestampMicros) :
    decodeTimestamp t = .ok (if t = 0 then none else some (t * 100 / 1000)) := by
  have h10 : t * 100 / 1000 = t / 10 := by
    rw [show (1000 : Nat) = 100 * 10 from rfl, ← Nat.div_div_eq_div_mul,
      Nat.mul_div_cancel t (by norm_num : (0 : Nat) < 100)]
  unfold decodeTimestamp
  rcases Nat.eq_zero_or_pos t with h0 | hp
  · subst h0; simp
  · rw [if_pos hp, if_pos h, h10, if_neg (Nat.pos_iff_ne_zero.mp hp)]

/-- Witness for the amended C4 theorem at the concrete tick value 15, whose
1.5 microseconds are truncated to 1. -/
theorem decodeTimestamp_truncates_w :
    (15 : Nat) / 10 ≤ maxTimestampMicros ∧
      decodeTimestamp 15 = .ok (if (15 : Nat) = 0 then none else some (15 * 100 / 1000)) :=
  ⟨by decide, decodeTimestamp_truncates 15 (by decide)⟩

/-- C5 (counterexample): a header declaring record count 2 followed by
exactly one complete 280-byte record, for which the claim demands exactly
one decoded record; the tick field 2 ^ 64 - 1 of that record makes the
timestamp conversion raise, the catch-all handler fires, and the parse
returns zero records plus a diagnostic. -/
theorem c5_cex_overflow_record :
    parse_info2_file ⟨hdrN2 ++ overflowRecord, none⟩ = ([], true) ∧
      (hdrN2 ++ overflowRecord).length = 20 + 280 ∧
      leNat ((hdrN2.drop 4).take 4) = 2 :=
  ⟨rfl, rfl, rfl⟩

/-- C6: end-to-end decode of the exact well-formed item input — signature,
u64 size 1024, u64 ticks 0, u32 length 4, the ten bytes of C:\a in UTF-16LE
with a null pair — yields file size 1024, absent delete time, path C:\a,
name a. -/
theorem c6_item_end_to_end :
    parse_metadata_file ⟨goodItem, none⟩ = some goodItemRecord := by
  rfl

/-- C8 (counterexample): an I/O fault at offset 310 hits the second record
read after one record was already decoded; the claim demands an empty
record list, but the parse returns the record decoded before the fault,
together with the surfaced diagnostic. -/
theorem c8_cex_record_kept_on_fault :
    parse_info2_file ⟨hdrN2 ++ zeroRecord, some 310⟩ = ([mkInfo2 zeroRecord], true) ∧
      [mkInfo2 zeroRecord] ≠ ([] : List Info2Record) :=
  ⟨rfl, by decide⟩

/-- C9 (counterexample): the byte pair 00 D8 is a lone high surrogate
U+D800, a malformed code unit; the ignore-errors decode drops it entirely,
so the decoded text is empty and no fallback replacement character U+FFFD
appears in it. -/
theorem c9_cex_lone_surrogate_dropped :
    utf16leIgnore [0x00, 0xD8] = [] ∧ ¬ 0xFFFD ∈ utf16leIgnore [0x00, 0xD8] :=
  ⟨rfl, by decide⟩

theorem toUnits_lt : ∀ (bs : List Nat), (∀ b ∈ bs, b < 256) →
    ∀ u ∈ toUnits bs, u < 65536
  | [], _, u, hu => by simp [toUnits] at hu
  | [b], _, u, hu => by simp [toUnits] at hu
  | b0 :: b1 :: rest, h, u, hu => by
    rw [toUnits] at hu
    rcases List.mem_cons.mp hu with rfl | hu2
    · have hb0 := h b0 (by simp)
      have hb1 := h b1 (by simp)
      omega
    · exact toUnits_lt rest (fun b hb => h b (by simp [hb])) u hu2

theorem decodeUnits_valid : ∀ (us : List Nat), (∀ u ∈ us, u < 65536) →
    ∀ c ∈ decodeUnits us, (c < 0xD800 ∨ 0xDFFF < c) ∧ c ≤ 0x10FFFF := by
  intro us
  induction us using decodeUnits.induct with
  | case1 => intro _ c hc; simp [decodeUnits] at hc
  | case2 u h1 =>
    intro h c hc
    rw [decodeUnits, if_pos h1] at hc
    simp at hc
    subst hc
    exact ⟨h1, by have := h c (by simp); omega⟩
  | case3 u h1 =>
    intro _ c hc
    rw [decodeUnits, if_neg h1] at hc
    simp at hc
  | case4 u v rest h1 ih =>
    intro h c hc
    rw [decodeUnits, if_pos h1] at hc
    rcases List.mem_cons.mp hc with rfl | hc2
    · exact ⟨h1, by have := h c (by simp); omega⟩
    · exact ih (fun x hx => h x (by simp at hx ⊢; tauto)) c hc2
  | case5 u v rest h1 h2 ih =>
    intro h c hc
    rw [decodeUnits, if_neg h1, if_pos h2] at hc
    exact ih (fun x hx => h x (by simp at hx ⊢; tauto)) c hc
  | case6 u v rest h1 h2 h3 ih =>
    intro h c hc
    rw [decodeUnits, if_neg h1, if_neg h2, if_pos h3] at hc
    rcases List.mem_cons.mp hc with heq | hc2
    · have hu := h u (by simp)
      have hv := h v (by simp)
      refine ⟨Or.inr ?_, ?_⟩ <;> omega
    · exact ih (fun x hx => h x (by simp [hx])) c hc2
  | case7 u v rest h1 h2 h3 ih =>
    intro h c hc
    rw [decodeUnits, if_neg h1, if_neg h2, if_neg h3] at hc
    exact ih (fun x hx => h x (by simp at hx ⊢; tauto)) c hc

/-- C9 (amended): for every byte slice, the lossy wide-text decode used at
both call sites completes (it is a total function) and yields only valid
Unicode scalar values — every produced code point lies outside the
surrogate range and within the Unicode code space; malformed code units are
dropped rather than substituted by a replacement character. -/
theorem utf16leIgnore_scalars (bs : List Nat) (hb : ∀ b ∈ bs, b < 256) :
    ∀ c ∈ utf16leIgnore bs, (c < 0xD800 ∨ 0xDFFF < c) ∧ c ≤ 0x10FFFF :=
  fun c hc => decodeUnits_valid (toUnits bs) (toUnits_lt bs hb) c hc

/-- Witness for the amended C9 theorem: the two bytes 61 00 decode to the
single scalar 0x61, which is outside the surrogate range and inside the
code space. -/
theorem utf16leIgnore_scalars_w :
    (∀ b ∈ [0x61, 0], b < 256) ∧ 0x61 ∈ utf16leIgnore [0x61, 0] ∧
      ((0x61 < 0xD800 ∨ 0xDFFF < 0x61) ∧ 0x61 ≤ 0x10FFFF) :=
  ⟨by decide, by decide, utf16leIgnore_scalars [0x61, 0] (by decide) 0x61 (by decide)⟩

theorem parseInfo2Record_ok (b : List Nat)
    (h : leNat ((b.drop 8).take 8) / 10 ≤ maxTimestampMicros) :
    parseInfo2Record b = .ok (mkInfo2 b) := by
  unfold parseInfo2Record decodeTimestamp
  rcases Nat.eq_zero_or_pos (leNat ((b.drop 8).take 8)) with h0 | hp
  · rw [h0]
    simp [mkInfo2, h0]
  · rw [if_pos hp, if_pos h]
    simp [mkInfo2, hp]

theorem info2Loop_complete (blocks : List (List Nat)) :
    ∀ (pre tail : List Nat) (cnt : Nat), blocks.length ≤ cnt → tail.length < 280 →
    (∀ b ∈ blocks, b.length = 280 ∧ leNat ((b.drop 8).take 8) / 10 ≤ maxTimestampMicros) →
    info2Loop ⟨pre ++ (blocks.flatten ++ tail), none⟩ pre.length cnt =
      (blocks.map mkInfo2, false) := by
  induction blocks with
  | nil =>
    intro pre tail cnt _ htail _
    cases cnt with
    | zero => simp [info2Loop]
    | succ c =>
      simp only [info2Loop, readSrc]
      have hdrop : (pre ++ (List.flatten [] ++ tail)).drop pre.length = tail := by
        simp [List.drop_left]
      rw [hdrop, List.take_of_length_le (Nat.le_of_lt htail), if_pos htail]
      simp
  | cons b bs ih =>
    intro pre tail cnt hcnt htail hb
    obtain ⟨hb280, hbt⟩ := hb b (List.mem_cons_self b bs)
    have hbs : ∀ x ∈ bs, x.length = 280 ∧ leNat ((x.drop 8).take 8) / 10 ≤ maxTimestampMicros :=
      fun x hx => hb x (List.mem_cons_of_mem _ hx)
    cases cnt with
    | zero => simp at hcnt
    | succ c =>
      simp only [info2Loop, readSrc]
      have hdrop : (pre ++ (List.flatten (b :: bs) ++ tail)).drop pre.length =
          b ++ (bs.flatten ++ tail) := by
        rw [List.drop_left]
        simp [List.append_assoc]
      have htake : ((pre ++ (List.flatten (b :: bs) ++ tail)).drop pre.length).take 280 = b := by
        rw [hdrop]; exact List.take_left' hb280
      rw [htake, if_neg (by omega : ¬ b.length < 280), parseInfo2Record_ok b hbt]
      have hrec : info2Loop ⟨pre ++ (List.flatten (b :: bs) ++ tail), none⟩
          (pre.length + 280) c = (bs.map mkInfo2, false) := by
        have hih := ih (pre ++ b) tail c (by simp at hcnt; omega) htail hbs
        have hdata : (pre ++ b) ++ (bs.flatten ++ tail) = pre ++ (List.flatten (b :: bs) ++ tail) := by
          simp [List.append_assoc]
        have hlen : (pre ++ b).length = pre.length + 280 := by simp [hb280]
        rw [hdata, hlen] at hih
        exact hih
      rw [hrec]
      rfl

/-- C5 (amended): a complete 20-byte header declaring record count `N`,
followed by `blocks.length <= N` complete 280-byte records whose tick
fields stay within the representable datetime range, then a short tail,
parses to exactly those records in input order, without diagnostic. -/
theorem info2_truncation_tolerated (N : Nat) (header tail : List Nat)
    (blocks : List (List Nat))
    (hh : header.length = 20) (hN : leNat ((header.drop 4).take 4) = N)
    (hkN : blocks.length ≤ N)
    (hb : ∀ b ∈ blocks, b.length = 280 ∧ leNat ((b.drop 8).take 8) / 10 ≤ maxTimestampMicros)
    (ht : tail.length < 280) :
    parse_info2_file ⟨header ++ (blocks.flatten ++ tail), none⟩ =
      (blocks.map mkInfo2, false) := by
  simp only [parse_info2_file, readSrc]
  have h20 : ((header ++ (blocks.flatten ++ tail)).drop 0).take 20 = header := by
    rw [List.drop_zero]; exact List.take_left' hh
  rw [h20, if_neg (by omega : ¬ header.length < 20), hN,
    show (20 : Nat) = header.length from hh.symm]
  exact info2Loop_complete blocks header tail N (le_trans hkN (le_refl N)) ht hb

/-- Witness for the amended C5 theorem: header declaring two records, one
complete all-zero record present, no tail: exactly one record is decoded. -/
theorem info2_truncation_tolerated_w :
    hdrN2.length = 20 ∧ (List.length [zeroRecord] ≤ 2) ∧
      parse_info2_file ⟨hdrN2 ++ (List.flatten [zeroRecord] ++ []), none⟩ =
        ([mkInfo2 zeroRecord], false) :=
  ⟨by decide, by decide,
    info2_truncation_tolerated 2 hdrN2 [] [zeroRecord] (by decide) rfl (by decide)
      (by decide) (by decide)⟩

theorem info2Loop_fault_prefix : ∀ (cnt pos : Nat) (d : List Nat) (k : Nat),
    ∃ t, (info2Loop ⟨d, some k⟩ pos cnt).1 ++ t = (info2Loop ⟨d, none⟩ pos cnt).1 := by
  intro cnt
  induction cnt with
  | zero => intro pos d k; exact ⟨[], rfl⟩
  | succ c ih =>
    intro pos d k
    by_cases hk : k < pos + 280
    · refine ⟨(info2Loop ⟨d, none⟩ pos (c + 1)).1, ?_⟩
      have hl : (info2Loop ⟨d, some k⟩ pos (c + 1)).1 = [] := by
        simp only [info2Loop, readSrc]
        rw [if_pos hk]
      rw [hl, List.nil_append]

    · have hread : readSrc ⟨d, some k⟩ pos 280 = .ok ((d.drop pos).take 280) := by
        simp only [readSrc]
        rw [if_neg hk]
      by_cases hshort : ((d.drop pos).take 280).length < 280
      · refine ⟨[], ?_⟩
        have h1 : info2Loop ⟨d, some k⟩ pos (c + 1) = ([], false) := by
          simp only [info2Loop]
          rw [hread]
          dsimp only
          rw [if_pos hshort]
        have h2 : info2Loop ⟨d, none⟩ pos (c + 1) = ([], false) := by
          simp only [info2Loop, readSrc]
          rw [if_pos hshort]
        rw [h1, h2]; rfl
      · cases hp : parseInfo2Record ((d.drop pos).take 280) with
        | error e =>
          refine ⟨[], ?_⟩
          have h1 : info2Loop ⟨d, some k⟩ pos (c + 1) = ([], true) := by
            simp only [info2Loop]
            rw [hread]
            dsimp only
            rw [if_neg hshort, hp]
          have h2 : info2Loop ⟨d, none⟩ pos (c + 1) = ([], true) := by
            simp only [info2Loop, readSrc]
            rw [if_neg hshort, hp]
          rw [h1, h2]; rfl
        | ok r =>
          obtain ⟨t, ht⟩ := ih (pos + 280) d k
          refine ⟨t, ?_⟩
          have h1 : info2Loop ⟨d, some k⟩ pos (c + 1) =
              (r :: (info2Loop ⟨d, some k⟩ (pos + 280) c).1,
                (info2Loop ⟨d, some k⟩ (pos + 280) c).2) := by
            simp only [info2Loop]
            rw [hread]
            dsimp only
            rw [if_neg hshort, hp]
          have h2 : info2Loop ⟨d, none⟩ pos (c + 1) =
              (r :: (info2Loop ⟨d, none⟩ (pos + 280) c).1,
                (info2Loop ⟨d, none⟩ (pos + 280) c).2) := by
            simp only [info2Loop, readSrc]
            rw [if_neg hshort, hp]
          rw [h1, h2, List.cons_append, ht]

/-- C8 (amended): an underlying I/O fault never escapes `parse_info2_file`
as an exception (the function is total on every faulty source) and never
becomes a per-record outcome; the parse simply stops, returning the records
decoded before the fault — always a prefix of the fault-free parse of the
same bytes, and not necessarily empty. -/
theorem info2_fault_yields_prefix (d : List Nat) (k : Nat) :
    ∃ t, (parse_info2_file ⟨d, some k⟩).1 ++ t = (parse_info2_file ⟨d, none⟩).1 := by
  by_cases hk : k < 0 + 20
  · refine ⟨(parse_info2_file ⟨d, none⟩).1, ?_⟩
    have h1 : (parse_info2_file ⟨d, some k⟩).1 = [] := by
      simp only [parse_info2_file, readSrc]
      rw [if_pos hk]
    rw [h1, List.nil_append]
  · have hread : readSrc ⟨d, some k⟩ 0 20 = .ok ((d.drop 0).take 20) := by
      simp only [readSrc]
      rw [if_neg hk]
    by_cases hshort : ((d.drop 0).take 20).length < 20
    · refine ⟨[], ?_⟩
      have h1 : parse_info2_file ⟨d, some k⟩ = ([], false) := by
        simp only [parse_info2_file]
        rw [hread]
        dsimp only
        rw [if_pos hshort]
      have h2 : parse_info2_file ⟨d, none⟩ = ([], false) := by
        simp only [parse_info2_file, readSrc]
        rw [if_pos hshort]
      rw [h1, h2]; rfl
    · obtain ⟨t, ht⟩ :=
        info2Loop_fault_prefix (leNat ((((d.drop 0).take 20).drop 4).take 4)) 20 d k
      refine ⟨t, ?_⟩
      have h1 : parse_info2_file ⟨d, some k⟩ =
          info2Loop ⟨d, some k⟩ 20 (leNat ((((d.drop 0).take 20).drop 4).take 4)) := by
        simp only [parse_info2_file]
        rw [hread]
        dsimp only
        rw [if_neg hshort]
      have h2 : parse_info2_file ⟨d, none⟩ =
          info2Loop ⟨d, none⟩ 20 (leNat ((((d.drop 0).take 20).drop 4).take 4)) := by
        simp only [parse_info2_file, readSrc]
        rw [if_neg hshort]
      rw [h1, h2]
      exact ht

/-- C7: whenever the signature scan succeeds and the bytes after it decode a
file size, tick value and positive path length L, but fewer than 2*L path
bytes remain, the item parser still returns a record carrying the decoded
file size and delete time, with path and name both the literal Unknown. -/
theorem meta_short_path_degrades (d : List Nat) (p size ticks L : Nat)
    (dt : Option Nat) (rest : List Nat)
    (hscan : scanSig ⟨d, none⟩ 0 (d.length + 1) = .found p)
    (hdrop : d.drop p = leBytes 8 size ++ (leBytes 8 ticks ++ (leBytes 4 L ++ rest)))
    (hsz : size < 256 ^ 8) (htk : ticks < 256 ^ 8) (hL : L < 256 ^ 4)
    (hLpos : 0 < L) (hrest : rest.length < L * 2)
    (hdt : decodeTimestamp ticks = .ok dt) :
    parse_metadata_file ⟨d, none⟩ = some ⟨unknownText, unknownText, size, dt⟩ := by
  have h8 : (d.drop p).take 8 = leBytes 8 size := by
    rw [hdrop]; exact List.take_left' (length_leBytes 8 size)
  have hd8 : d.drop (p + 8) = leBytes 8 ticks ++ (leBytes 4 L ++ rest) := by
    rw [← List.drop_drop, hdrop]
    exact List.drop_left' (length_leBytes 8 size)
  have h16take : (d.drop (p + 8)).take 8 = leBytes 8 ticks := by
    rw [hd8]; exact List.take_left' (length_leBytes 8 ticks)
  have hd16 : d.drop (p + 16) = leBytes 4 L ++ rest := by
    rw [show p + 16 = p + 8 + 8 from rfl, ← List.drop_drop, hd8]
    exact List.drop_left' (length_leBytes 8 ticks)
  have h20take : (d.drop (p + 16)).take 4 = leBytes 4 L := by
    rw [hd16]; exact List.take_left' (length_leBytes 4 L)
  have hd20 : d.drop (p + 20) = rest := by
    rw [show p + 20 = p + 16 + 4 from rfl, ← List.drop_drop, hd16]
    exact List.drop_left' (length_leBytes 4 L)
  simp only [parse_metadata_file]
  rw [hscan]
  simp only [readSrc]
  rw [h8, h16take, h20take, hd20]
  rw [leNat_leBytes 8 size hsz, leNat_leBytes 8 ticks htk, leNat_leBytes 4 L hL]
  rw [hdt]
  simp only [length_leBytes]
  rw [if_neg (by omega : ¬ (8 : Nat) < 8), if_neg (by omega : ¬ (4 : Nat) < 4),
    if_pos hLpos]
  rw [List.take_of_length_le (Nat.le_of_lt hrest)]
  rw [if_neg (by omega : ¬ rest.length ≥ L * 2)]
  norm_num

/-- Witness for the C7 theorem: signature, size 5, ticks 0, length 4, but a
single path byte remains; the parse returns size 5, no timestamp, and the
Unknown placeholders. -/
theorem meta_short_path_degrades_w :
    scanSig ⟨sigBytes ++ leBytes 8 5 ++ leBytes 8 0 ++ leBytes 4 4 ++ [0x61], none⟩ 0
        ((sigBytes ++ leBytes 8 5 ++ leBytes 8 0 ++ leBytes 4 4 ++ [0x61]).length + 1) =
      .found 8 ∧
    parse_metadata_file ⟨sigBytes ++ leBytes 8 5 ++ leBytes 8 0 ++ leBytes 4 4 ++ [0x61], none⟩ =
      some ⟨unknownText, unknownText, 5, none⟩ :=
  ⟨by decide,
    meta_short_path_degrades
      (sigBytes ++ leBytes 8 5 ++ leBytes 8 0 ++ leBytes 4 4 ++ [0x61]) 8 5 0 4 none [0x61]
      (by decide) (by decide) (by decide) (by decide) (by decide) (by decide) (by decide) rfl⟩

/-- C10: the signature scan terminates on every finite input: with any fuel
exceeding the bytes remaining past the start offset, the scan never
exhausts its fuel — every iteration either returns (short read, fault,
signature, or the limit branch) or strictly advances the read position, by
8 bytes on a window starting FF FE and by 1 byte otherwise.  Since
`parse_metadata_file` runs the scan with fuel one more than the whole input
length, the parse is a total function of its input. -/
theorem scanSig_no_spin (fuel : Nat) (s : Src) (pos : Nat)
    (h : s.data.length - pos < fuel) : scanSig s pos fuel ≠ ScanResult.spin := by
  induction fuel generalizing s pos with
  | zero => exact absurd h (Nat.not_lt_zero _)
  | succ f ih =>
    obtain ⟨d, fo⟩ := s
    have hd : d.length - pos < f + 1 := by simpa using h
    cases fo with
    | none =>
      simp only [scanSig, readSrc]
      by_cases hlt : ((d.drop pos).take 8).length < 8
      · rw [if_pos hlt]; simp
      · rw [if_neg hlt]
        have hge : 8 ≤ d.length - pos := by
          rw [List.length_take, List.length_drop] at hlt
          omega
        by_cases hsig : (d.drop pos).take 8 = sigBytes
        · rw [if_pos hsig]; simp
        · rw [if_neg hsig]
          by_cases hbom : ((d.drop pos).take 8).take 2 = [0xFF, 0xFE]
          · rw [if_pos hbom]
            exact ih ⟨d, none⟩ (pos + 8) (by simp; omega)
          · rw [if_neg hbom, if_neg (by omega : ¬ pos + 1 > pos + 100)]
            exact ih ⟨d, none⟩ (pos + 1) (by simp; omega)
    | some k =>
      simp only [scanSig, readSrc]
      by_cases hflt : k < pos + 8
      · rw [if_pos hflt]; simp
      · rw [if_neg hflt]
        dsimp only
        by_cases hlt : ((d.drop pos).take 8).length < 8
        · rw [if_pos hlt]; simp
        · rw [if_neg hlt]
          have hge : 8 ≤ d.length - pos := by
            rw [List.length_take, List.length_drop] at hlt
            omega
          by_cases hsig : (d.drop pos).take 8 = sigBytes
          · rw [if_pos hsig]; simp
          · rw [if_neg hsig]
            by_cases hbom : ((d.drop pos).take 8).take 2 = [0xFF, 0xFE]
            · rw [if_pos hbom]
              exact ih ⟨d, some k⟩ (pos + 8) (by simp; omega)
            · rw [if_neg hbom, if_neg (by omega : ¬ pos + 1 > pos + 100)]
              exact ih ⟨d, some k⟩ (pos + 1) (by simp; omega)

/-- Witness for the scan termination theorem at the empty source with fuel
one. -/
theorem scanSig_no_spin_w :
    (Src.mk [] none).data.length - 0 < 1 ∧ scanSig ⟨[], none⟩ 0 1 ≠ ScanResult.spin :=
  ⟨by decide, scanSig_no_spin 1 ⟨[], none⟩ 0 (by decide)⟩

end RecycleBin
